import Mathlib

/-
Verification of the component ledger, snapshot history, and aggregate
electrical computations of the Electronic Circuit Analyzer (src/Source.cpp).

Modelling conventions:
- C++ `double` values are modelled as exact rationals (`Rat`); `int` as `Int`.
- The program's global mutable variables (componentsData, seriesCircuit,
  parallelCircuit, undoStack, opQueue, nextId) are collected in a `State`
  record that every operation takes and returns explicitly.
- `std::stack` is a `List` whose head is the top; `std::queue` is a `List`
  whose head is the front (push appends at the tail, pop drops the head).
- `std::complex<double>` is a pair of rationals `Cd`; its `abs` is modelled
  by the squared magnitude `Cd.absSq` (the square root leaves the rationals;
  `abs z = 0 ↔ absSq z = 0` and `0 ≤ abs z ↔ 0 ≤ absSq z` transfer all the
  claims considered here).
- The iostream formatting of the activity-log descriptions is modelled with
  `toString`; no property depends on the exact digits.
-/

namespace Circuit

/-- Component kinds, from the source enum `ComponentType`. -/
inductive ComponentType
  | RESISTOR
  | CAPACITOR
  | INDUCTOR
deriving DecidableEq, Repr

/-- Circuit group tags, from the source enum `CircuitType`. -/
inductive CircuitType
  | SERIES
  | PARALLEL
deriving DecidableEq, Repr

/-- A circuit component, from `struct Component`. -/
structure Component where
  id : Int
  type : ComponentType
  value : Rat
  circuitType : CircuitType
deriving DecidableEq, Repr

/-- An activity-log entry, from `struct Operation`. -/
structure Operation where
  description : String
deriving DecidableEq, Repr

/-- The program's ledger globals: `componentsData`, `seriesCircuit`,
`parallelCircuit`, `undoStack`, `opQueue`, `nextId`. -/
structure State where
  componentsData : List Component
  seriesCircuit : List Int
  parallelCircuit : List Int
  undoStack : List (List Component)
  opQueue : List Operation
  nextId : Int
deriving DecidableEq, Repr

/-- The initial values of the globals: all containers empty, `nextId = 1`. -/
def initState : State :=
  { componentsData := []
    seriesCircuit := []
    parallelCircuit := []
    undoStack := []
    opQueue := []
    nextId := 1 }

/-- From `TypeToString`. -/
def TypeToString (t : ComponentType) : String :=
  if t = ComponentType.RESISTOR then "Resistor"
  else if t = ComponentType.CAPACITOR then "Capacitor"
  else "Inductor"

/-- From `PushSnapshot`: push a full copy of `componentsData` on the undo
stack, append the label to the activity log, and drop the oldest entry once
the log holds more than 20 entries. -/
def PushSnapshot (desc : String) (s : State) : State :=
  let q := s.opQueue ++ [{ description := desc }]
  { s with
    undoStack := s.componentsData :: s.undoStack
    opQueue := if 20 < q.length then q.tail else q }

/-- The description string built by `AddComponent` (iostream formatting of
the numbers abstracted by `toString`). -/
def addDescription (t : ComponentType) (circuit : CircuitType) (idv : Int) (v : Rat) : String :=
  "Added " ++ TypeToString t ++ " to "
    ++ (if circuit = CircuitType.SERIES then "SERIES" else "PARALLEL")
    ++ " circuit (ID=" ++ toString idv ++ ", value=" ++ toString v ++ ")"

/-- From `AddComponent`: append a component carrying `nextId`, append the id
to the matching group list, push a snapshot (note: the source calls
`PushSnapshot` after the `push_back`, so the snapshot already contains the
new component), then increment `nextId`. No validation of `value` happens
here; the `value > 0` check is in the add screen's submit handler. -/
def AddComponent (t : ComponentType) (value : Rat) (circuit : CircuitType) (s : State) : State :=
  let s1 : State :=
    { s with
      componentsData := s.componentsData ++ [{ id := s.nextId, type := t, value := value, circuitType := circuit }]
      seriesCircuit :=
        if circuit = CircuitType.SERIES then s.seriesCircuit ++ [s.nextId] else s.seriesCircuit
      parallelCircuit :=
        if circuit = CircuitType.SERIES then s.parallelCircuit else s.parallelCircuit ++ [s.nextId] }
  let s2 := PushSnapshot (addDescription t circuit s.nextId value) s1
  { s2 with nextId := s2.nextId + 1 }

/-- From `RemoveComponent`: look for the first component with the given id;
if found, remove the id from both group lists (`std::list::remove` deletes
every equal entry), push a snapshot (taken before the erase, so it still
contains the component), erase the first matching component and return
`true`; otherwise return `false` and change nothing. -/
def RemoveComponent (idv : Int) (s : State) : State × Bool :=
  if s.componentsData.any (fun c => c.id == idv) then
    let s1 : State :=
      { s with
        seriesCircuit := s.seriesCircuit.filter (fun i => i != idv)
        parallelCircuit := s.parallelCircuit.filter (fun i => i != idv) }
    let s2 := PushSnapshot ("Removed component ID=" ++ toString idv) s1
    ({ s2 with componentsData := s2.componentsData.eraseP (fun c => c.id == idv) }, true)
  else (s, false)

/-- From `FindComponent`: linear search by id, first match, `none` for the
null pointer. -/
def FindComponent (idv : Int) (s : State) : Option Component :=
  s.componentsData.find? (fun c => c.id == idv)

/-- The list-rebuilding loop of `Undo`: scan the restored collection in
order and bucket each id by its `circuitType`. -/
def rebuildLists : List Component → List Int × List Int
  | [] => ([], [])
  | c :: rest =>
    let lists := rebuildLists rest
    if c.circuitType = CircuitType.SERIES then (c.id :: lists.1, lists.2)
    else (lists.1, c.id :: lists.2)

/-- From `Undo` (a `void` function in the source): if the undo stack is
nonempty, replace `componentsData` by the top snapshot, pop it, and rebuild
both group lists from the restored collection; otherwise do nothing. -/
def Undo (s : State) : State :=
  match s.undoStack with
  | [] => s
  | top :: rest =>
    let lists := rebuildLists top
    { s with
      componentsData := top
      undoStack := rest
      seriesCircuit := lists.1
      parallelCircuit := lists.2 }

/-- From `CalcSeries`: the loop state is threaded explicitly; the `State`
component records that the iteration only reads the ledger. -/
def calcSeriesLoop : List Int → State → Rat → State × Rat
  | [], s, sum => (s, sum)
  | idv :: rest, s, sum =>
    match FindComponent idv s with
    | some c =>
      if c.type = ComponentType.RESISTOR then calcSeriesLoop rest s (sum + c.value)
      else calcSeriesLoop rest s sum
    | none => calcSeriesLoop rest s sum

/-- From `CalcSeries`: sum of `value` over resistor members. -/
def CalcSeries (ids : List Int) (s : State) : Rat :=
  (calcSeriesLoop ids s 0).2

/-- From `CalcParallel`: the reciprocal-sum loop. -/
def calcParallelLoop : List Int → State → Rat → State × Rat
  | [], s, inv => (s, inv)
  | idv :: rest, s, inv =>
    match FindComponent idv s with
    | some c =>
      if c.type = ComponentType.RESISTOR ∧ c.value ≠ 0 then
        calcParallelLoop rest s (inv + 1 / c.value)
      else calcParallelLoop rest s inv
    | none => calcParallelLoop rest s inv

/-- From `CalcParallel`: `1 / Σ (1/value)` over nonzero resistor members,
`0` when the reciprocal sum is zero. -/
def CalcParallel (ids : List Int) (s : State) : Rat :=
  let r := calcParallelLoop ids s 0
  if r.2 = 0 then 0 else 1 / r.2

/-- `std::complex<double>` modelled as a pair of exact rationals. -/
@[ext]
structure Cd where
  re : Rat
  im : Rat
deriving DecidableEq, Repr

/-- Complex addition. -/
def Cd.add (x y : Cd) : Cd := { re := x.re + y.re, im := x.im + y.im }

/-- Complex multiplication. -/
def Cd.mul (x y : Cd) : Cd :=
  { re := x.re * y.re - x.im * y.im, im := x.re * y.im + x.im * y.re }

/-- Complex negation. -/
def Cd.neg (x : Cd) : Cd := { re := -x.re, im := -x.im }

/-- Complex division (the textbook formula; `std::complex` computes the same
value, up to its floating-point scaling, which is exact here). -/
def Cd.div (x y : Cd) : Cd :=
  let d := y.re * y.re + y.im * y.im
  { re := (x.re * y.re + x.im * y.im) / d, im := (x.im * y.re - x.re * y.im) / d }

instance : Add Cd := ⟨Cd.add⟩

instance : Mul Cd := ⟨Cd.mul⟩

instance : Neg Cd := ⟨Cd.neg⟩

instance : Div Cd := ⟨Cd.div⟩

/-- The squared magnitude; `std::abs` is its square root. -/
def Cd.absSq (z : Cd) : Rat := z.re * z.re + z.im * z.im

/-- The constant `J = i` from the source. -/
def J : Cd := { re := 0, im := 1 }

/-- The exact value of the `M_PI` double literal in the source. -/
def M_PI : Rat := 3.14159265358979323846

/-- The process-wide analysis frequency (`analysisFrequencyHz`), default 50. -/
def analysisFrequencyHz : Rat := 50

/-- From `GetComponentImpedanceComplex`: `R`, `jωL`, `-j/(ωC)`; the null
pointer maps to `0`, a zero-value capacitor to the sentinel `1e10`. -/
def GetComponentImpedanceComplex (c : Option Component) (freqHz : Rat) : Cd :=
  match c with
  | none => { re := 0, im := 0 }
  | some c =>
    if c.type = ComponentType.RESISTOR then { re := c.value, im := 0 }
    else
      let omega := 2 * M_PI * freqHz
      if c.type = ComponentType.INDUCTOR then
        J * ({ re := omega, im := 0 } * { re := c.value, im := 0 })
      else if c.value = 0 then { re := 1e10, im := 0 }
      else (-J) / ({ re := omega * c.value, im := 0 })

/-- From `CalcSeriesImpedance`: the complex summation loop, state threaded. -/
def calcSeriesImpedanceLoop : List Int → Rat → State → Cd → State × Cd
  | [], _, s, acc => (s, acc)
  | idv :: rest, f, s, acc =>
    match FindComponent idv s with
    | some c => calcSeriesImpedanceLoop rest f s (acc + GetComponentImpedanceComplex (some c) f)
    | none => calcSeriesImpedanceLoop rest f s acc

/-- From `CalcSeriesImpedance`, with `std::abs` modelled by the squared
magnitude: `|Σ Z|²`. -/
def CalcSeriesImpedanceSq (ids : List Int) (freqHz : Rat) (s : State) : Rat :=
  Cd.absSq (calcSeriesImpedanceLoop ids freqHz s { re := 0, im := 0 }).2

/-- From `CalcParallelImpedance`: the admittance summation loop, skipping
zero impedances, state threaded. -/
def calcParallelImpedanceLoop : List Int → Rat → State → Cd → State × Cd
  | [], _, s, inv => (s, inv)
  | idv :: rest, f, s, inv =>
    match FindComponent idv s with
    | some c =>
      let z := GetComponentImpedanceComplex (some c) f
      if z ≠ { re := 0, im := 0 } then
        calcParallelImpedanceLoop rest f s (inv + { re := 1, im := 0 } / z)
      else calcParallelImpedanceLoop rest f s inv
    | none => calcParallelImpedanceLoop rest f s inv

/-- From `CalcParallelImpedance`, with `std::abs` modelled by the squared
magnitude: `0` when the admittance sum is exactly zero, `|1 / Σ (1/Z)|²`
otherwise. -/
def CalcParallelImpedanceSq (ids : List Int) (freqHz : Rat) (s : State) : Rat :=
  let inv := (calcParallelImpedanceLoop ids freqHz s { re := 0, im := 0 }).2
  if inv = { re := 0, im := 0 } then 0
  else Cd.absSq ({ re := 1, im := 0 } / inv)

/-- The presentation-layer globals the verified handlers touch:
`textBuffer`, `statusMessage`, `selectedIds`, plus the ledger state. -/
structure GuiState where
  ledger : State
  textBuffer : String
  statusMessage : String
  selectedIds : List Int
deriving DecidableEq, Repr

/-- From the submit branch of `DrawAddScreen` (the "Add" button click):
`StringToDoubleSafe` is abstracted by its results `ok` and `v`; the ledger
is mutated only when `ok && v > 0.0`, otherwise only the status message
changes. -/
def DrawAddScreenSubmit (ok : Bool) (v : Rat) (t : ComponentType) (ct : CircuitType)
    (g : GuiState) : GuiState :=
  if ok = true ∧ 0 < v then
    { g with
      ledger := AddComponent t v ct g.ledger
      statusMessage := "Component added successfully!"
      textBuffer := "" }
  else { g with statusMessage := "Invalid value. Enter a positive number." }

/-- From `DrawMainMenu`, button index 5 ("Undo Last Operation"): every
button click first clears `textBuffer`, `statusMessage` and `selectedIds`,
then `case 5` calls `Undo()`; no value comes back from `Undo`. -/
def DrawMainMenuUndoClick (g : GuiState) : GuiState :=
  { g with
    textBuffer := ""
    statusMessage := ""
    selectedIds := []
    ledger := Undo g.ledger }

/-- A ledger mutation as issued by the presentation layer. -/
inductive LedgerOp
  | add (t : ComponentType) (v : Rat) (ct : CircuitType)
  | remove (idv : Int)
  | undo

/-- Apply one ledger operation. -/
def applyOp (s : State) : LedgerOp → State
  | LedgerOp.add t v ct => AddComponent t v ct s
  | LedgerOp.remove idv => (RemoveComponent idv s).1
  | LedgerOp.undo => Undo s

/-- Run a sequence of ledger operations from a state. -/
def runOps (ops : List LedgerOp) (s : State) : State :=
  ops.foldl applyOp s

/-- The ids of a component list, in order. -/
def idsOf (l : List Component) : List Int :=
  l.map Component.id

/-- The ids of the SERIES-tagged members of a component list, in order. -/
def seriesIdsOf (l : List Component) : List Int :=
  (l.filter (fun c => c.circuitType = CircuitType.SERIES)).map Component.id

/-- The ids of the PARALLEL-tagged members of a component list, in order. -/
def parallelIdsOf (l : List Component) : List Int :=
  (l.filter (fun c => c.circuitType = CircuitType.PARALLEL)).map Component.id

/-- The group lists are exactly the bucketed ids of the collection, in
collection order. -/
def canonical (s : State) : Prop :=
  s.seriesCircuit = seriesIdsOf s.componentsData
    ∧ s.parallelCircuit = parallelIdsOf s.componentsData

/-- Every id of the component list is below `n`. -/
def boundedIds (n : Int) (l : List Component) : Prop :=
  ∀ c ∈ l, c.id < n

/-- Well-formedness of a ledger state: canonical group lists, duplicate-free
ids bounded by `nextId`, and the same for every stored snapshot. -/
def WF (s : State) : Prop :=
  canonical s
    ∧ (idsOf s.componentsData).Nodup
    ∧ boundedIds s.nextId s.componentsData
    ∧ ∀ snap ∈ s.undoStack, (idsOf snap).Nodup ∧ boundedIds s.nextId snap

/-- The invariant claimed in the spec: the union of the two group lists is
the set of ids of the collection, and the two lists are disjoint. -/
def GroupListsInv (s : State) : Prop :=
  (∀ i ∈ s.seriesCircuit, i ∈ idsOf s.componentsData)
    ∧ (∀ i ∈ s.parallelCircuit, i ∈ idsOf s.componentsData)
    ∧ (∀ i ∈ idsOf s.componentsData, i ∈ s.seriesCircuit ∨ i ∈ s.parallelCircuit)
    ∧ (∀ i ∈ s.seriesCircuit, i ∉ s.parallelCircuit)

instance (s : State) : Decidable (canonical s) := by
  unfold canonical; infer_instance

instance (n : Int) (l : List Component) : Decidable (boundedIds n l) := by
  unfold boundedIds; infer_instance

instance (s : State) : Decidable (WF s) := by
  unfold WF; infer_instance

instance (s : State) : Decidable (GroupListsInv s) := by
  unfold GroupListsInv; infer_instance

/-- `idsOf` distributes over cons. -/
theorem idsOf_cons (c : Component) (l : List Component) :
    idsOf (c :: l) = c.id :: idsOf l := rfl

/-- `idsOf` distributes over append. -/
theorem idsOf_append (l₁ l₂ : List Component) :
    idsOf (l₁ ++ l₂) = idsOf l₁ ++ idsOf l₂ := by
  simp [idsOf]

/-- `seriesIdsOf` over an appended singleton. -/
theorem seriesIdsOf_append (l₁ l₂ : List Component) :
    seriesIdsOf (l₁ ++ l₂) = seriesIdsOf l₁ ++ seriesIdsOf l₂ := by
  simp [seriesIdsOf]

/-- `parallelIdsOf` over an appended singleton. -/
theorem parallelIdsOf_append (l₁ l₂ : List Component) :
    parallelIdsOf (l₁ ++ l₂) = parallelIdsOf l₁ ++ parallelIdsOf l₂ := by
  simp [parallelIdsOf]

/-- The rebuild loop of `Undo` produces exactly the canonical lists. -/
theorem rebuildLists_eq (l : List Component) :
    rebuildLists l = (seriesIdsOf l, parallelIdsOf l) := by
  induction l with
  | nil => rfl
  | cons c rest ih =>
    cases hct : c.circuitType <;>
      simp [rebuildLists, ih, seriesIdsOf, parallelIdsOf, hct]

/-- Membership in a bucketed id list implies membership among the ids. -/
theorem mem_idsOf_of_mem_filter_map {i : Int} {p : Component → Bool} {l : List Component}
    (h : i ∈ (l.filter p).map Component.id) : i ∈ idsOf l := by
  rcases List.mem_map.mp h with ⟨c, hc, rfl⟩
  exact List.mem_map.mpr ⟨c, List.mem_of_mem_filter hc, rfl⟩

/-- Filtering out an id that is not present leaves an id list unchanged. -/
theorem filter_ne_eq_self {idv : Int} {l : List Int} (h : idv ∉ l) :
    l.filter (fun i => i != idv) = l := by
  apply List.filter_eq_self.mpr
  intro a ha
  exact bne_iff_ne.mpr (fun e => h (e ▸ ha))

/-- Erasing the (unique, by `Nodup`) component with a given id commutes with
bucketing: the bucketed ids of the erased collection are the bucketed ids
with that id filtered out. -/
theorem filter_map_eraseP (p : Component → Bool) (idv : Int) (l : List Component)
    (h : (idsOf l).Nodup) :
    ((l.eraseP (fun c => c.id == idv)).filter p).map Component.id
      = ((l.filter p).map Component.id).filter (fun i => i != idv) := by
  induction l with
  | nil => rfl
  | cons c rest ih =>
    rw [idsOf_cons, List.nodup_cons] at h
    obtain ⟨hni, hnd⟩ := h
    by_cases hc : c.id = idv
    · subst hc
      rw [List.eraseP_cons_of_pos (by simp)]
      have hrest : ((rest.filter p).map Component.id).filter (fun i => i != c.id)
          = (rest.filter p).map Component.id :=
        filter_ne_eq_self (fun hm => hni (mem_idsOf_of_mem_filter_map hm))
      by_cases hp : p c = true
      · rw [List.filter_cons_of_pos hp, List.map_cons, List.filter_cons_of_neg (by simp), hrest]
      · rw [List.filter_cons_of_neg hp, hrest]
    · rw [List.eraseP_cons_of_neg (by simp [hc])]
      by_cases hp : p c = true
      · rw [List.filter_cons_of_pos hp, List.filter_cons_of_pos hp, List.map_cons,
          List.map_cons, List.filter_cons_of_pos (p := fun i => i != idv) (a := c.id)
            (bne_iff_ne.mpr hc), ih hnd]
      · rw [List.filter_cons_of_neg hp, List.filter_cons_of_neg hp, ih hnd]

/-- `eraseP` preserves `Nodup` of the ids. -/
theorem nodup_idsOf_eraseP {l : List Component} (q : Component → Bool)
    (h : (idsOf l).Nodup) : (idsOf (l.eraseP q)).Nodup :=
  List.Nodup.sublist (List.Sublist.map Component.id (List.eraseP_sublist l)) h

/-- `eraseP` preserves id bounds. -/
theorem boundedIds_eraseP {n : Int} {l : List Component} (q : Component → Bool)
    (h : boundedIds n l) : boundedIds n (l.eraseP q) :=
  fun c hc => h c ((List.eraseP_sublist l).subset hc)

/-- Field equation: the collection after `AddComponent`. -/
theorem AddComponent_componentsData (t : ComponentType) (v : Rat) (ct : CircuitType) (s : State) :
    (AddComponent t v ct s).componentsData
      = s.componentsData ++ [{ id := s.nextId, type := t, value := v, circuitType := ct }] := rfl

/-- Field equation: the series list after `AddComponent`. -/
theorem AddComponent_seriesCircuit (t : ComponentType) (v : Rat) (ct : CircuitType) (s : State) :
    (AddComponent t v ct s).seriesCircuit
      = if ct = CircuitType.SERIES then s.seriesCircuit ++ [s.nextId] else s.seriesCircuit := rfl

/-- Field equation: the parallel list after `AddComponent`. -/
theorem AddComponent_parallelCircuit (t : ComponentType) (v : Rat) (ct : CircuitType) (s : State) :
    (AddComponent t v ct s).parallelCircuit
      = if ct = CircuitType.SERIES then s.parallelCircuit else s.parallelCircuit ++ [s.nextId] := rfl

/-- Field equation: the undo stack after `AddComponent` (note that the pushed
snapshot already contains the new component). -/
theorem AddComponent_undoStack (t : ComponentType) (v : Rat) (ct : CircuitType) (s : State) :
    (AddComponent t v ct s).undoStack
      = (s.componentsData ++ [{ id := s.nextId, type := t, value := v, circuitType := ct }])
          :: s.undoStack := rfl

/-- Field equation: the id counter after `AddComponent`. -/
theorem AddComponent_nextId (t : ComponentType) (v : Rat) (ct : CircuitType) (s : State) :
    (AddComponent t v ct s).nextId = s.nextId + 1 := rfl

/-- The state produced by a successful `RemoveComponent`. -/
theorem RemoveComponent_found (idv : Int) (s : State)
    (h : s.componentsData.any (fun c => c.id == idv) = true) :
    RemoveComponent idv s
      = ({ componentsData := s.componentsData.eraseP (fun c => c.id == idv)
           seriesCircuit := s.seriesCircuit.filter (fun i => i != idv)
           parallelCircuit := s.parallelCircuit.filter (fun i => i != idv)
           undoStack := s.componentsData :: s.undoStack
           opQueue := (PushSnapshot ("Removed component ID=" ++ toString idv) s).opQueue
           nextId := s.nextId }, true) := by
  simp only [RemoveComponent, h, if_pos, PushSnapshot]

/-- The state produced by `Undo` on a nonempty history. -/
theorem Undo_cons {s : State} {top : List Component} {rest : List (List Component)}
    (h : s.undoStack = top :: rest) :
    Undo s
      = { s with
          componentsData := top
          undoStack := rest
          seriesCircuit := seriesIdsOf top
          parallelCircuit := parallelIdsOf top } := by
  simp only [Undo, h, rebuildLists_eq]

/-- `Undo` on an empty history is the identity. -/
theorem Undo_nil {s : State} (h : s.undoStack = []) : Undo s = s := by
  simp only [Undo, h]

/-- In a well-formed state the next id is fresh. -/
theorem nextId_fresh {s : State} (h : WF s) : s.nextId ∉ idsOf s.componentsData := by
  intro hm
  rcases List.mem_map.mp hm with ⟨c, hc, he⟩
  exact absurd (h.2.2.1 c hc) (by rw [he]; exact lt_irrefl _)

/-- `AddComponent` preserves well-formedness. -/
theorem wf_add (t : ComponentType) (v : Rat) (ct : CircuitType) {s : State} (h : WF s) :
    WF (AddComponent t v ct s) := by
  obtain ⟨⟨hs, hp⟩, hnd, hb, hstack⟩ := h
  have hfresh : s.nextId ∉ idsOf s.componentsData := nextId_fresh ⟨⟨hs, hp⟩, hnd, hb, hstack⟩
  have hndnew : (idsOf (s.componentsData
      ++ [{ id := s.nextId, type := t, value := v, circuitType := ct }])).Nodup := by
    rw [idsOf_append, List.nodup_append]
    refine ⟨hnd, List.nodup_singleton _, ?_⟩
    intro a ha hmem
    simp only [idsOf, List.map_cons, List.map_nil, List.mem_singleton] at hmem
    exact hfresh (hmem ▸ ha)
  have hbnew : boundedIds (s.nextId + 1) (s.componentsData
      ++ [{ id := s.nextId, type := t, value := v, circuitType := ct }]) := by
    intro c hc
    rcases List.mem_append.mp hc with hc | hc
    · exact lt_trans (hb c hc) (lt_add_one _)
    · rcases List.mem_singleton.mp hc with rfl
      exact lt_add_one _
  refine ⟨⟨?_, ?_⟩, ?_, ?_, ?_⟩
  · rw [AddComponent_seriesCircuit, AddComponent_componentsData, seriesIdsOf_append, hs]
    cases ct <;> simp [seriesIdsOf]
  · rw [AddComponent_parallelCircuit, AddComponent_componentsData, parallelIdsOf_append, hp]
    cases ct <;> simp [parallelIdsOf]
  · rw [AddComponent_componentsData]
    exact hndnew
  · rw [AddComponent_componentsData, AddComponent_nextId]
    exact hbnew
  · rw [AddComponent_undoStack, AddComponent_nextId]
    intro snap hsn
    rcases List.mem_cons.mp hsn with rfl | hm
    · exact ⟨hndnew, hbnew⟩
    · exact ⟨(hstack snap hm).1, fun c hc => lt_trans ((hstack snap hm).2 c hc) (lt_add_one _)⟩

/-- `RemoveComponent` preserves well-formedness. -/
theorem wf_remove (idv : Int) {s : State} (h : WF s) : WF (RemoveComponent idv s).1 := by
  obtain ⟨⟨hs, hp⟩, hnd, hb, hstack⟩ := h
  by_cases hfound : s.componentsData.any (fun c => c.id == idv) = true
  · rw [RemoveComponent_found idv s hfound]
    refine ⟨⟨?_, ?_⟩, ?_, ?_, ?_⟩
    · rw [hs]
      exact (filter_map_eraseP _ idv _ hnd).symm
    · rw [hp]
      exact (filter_map_eraseP _ idv _ hnd).symm
    · exact nodup_idsOf_eraseP _ hnd
    · exact boundedIds_eraseP _ hb
    · intro snap hsn
      rcases List.mem_cons.mp hsn with rfl | hm
      · exact ⟨hnd, hb⟩
      · exact hstack snap hm
  · have : RemoveComponent idv s = (s, false) := by
      simp only [RemoveComponent, if_neg hfound]
    rw [this]
    exact ⟨⟨hs, hp⟩, hnd, hb, hstack⟩

/-- `Undo` preserves well-formedness. -/
theorem wf_undo {s : State} (h : WF s) : WF (Undo s) := by
  obtain ⟨⟨hs, hp⟩, hnd, hb, hstack⟩ := h
  cases hstk : s.undoStack with
  | nil =>
    rw [Undo_nil hstk]
    exact ⟨⟨hs, hp⟩, hnd, hb, hstack⟩
  | cons top rest =>
    rw [Undo_cons hstk]
    have htop := hstack top (by rw [hstk]; exact List.mem_cons_self _ _)
    refine ⟨⟨rfl, rfl⟩, htop.1, htop.2, ?_⟩
    intro snap hm
    exact hstack snap (by rw [hstk]; exact List.mem_cons_of_mem _ hm)

/-- Every single ledger operation preserves well-formedness. -/
theorem wf_applyOp {s : State} (h : WF s) (op : LedgerOp) : WF (applyOp s op) := by
  cases op with
  | add t v ct => exact wf_add t v ct h
  | remove idv => exact wf_remove idv h
  | undo => exact wf_undo h

/-- The initial state is well-formed. -/
theorem wf_initState : WF initState := by decide

/-- Every run of ledger operations preserves well-formedness. -/
theorem wf_runOps (ops : List LedgerOp) {s : State} (h : WF s) : WF (runOps ops s) := by
  induction ops generalizing s with
  | nil => exact h
  | cons op ops ih => exact ih (wf_applyOp h op)

/-- Well-formedness entails the spec's union/disjointness invariant. -/
theorem groupListsInv_of_wf {s : State} (h : WF s) : GroupListsInv s := by
  obtain ⟨⟨hs, hp⟩, hnd, _, _⟩ := h
  refine ⟨?_, ?_, ?_, ?_⟩
  · intro i hi
    rw [hs] at hi
    exact mem_idsOf_of_mem_filter_map hi
  · intro i hi
    rw [hp] at hi
    exact mem_idsOf_of_mem_filter_map hi
  · intro i hi
    rcases List.mem_map.mp hi with ⟨c, hc, rfl⟩
    cases hct : c.circuitType
    · exact Or.inl (by
        rw [hs]
        exact List.mem_map.mpr ⟨c, List.mem_filter.mpr ⟨hc, by simp [hct]⟩, rfl⟩)
    · exact Or.inr (by
        rw [hp]
        exact List.mem_map.mpr ⟨c, List.mem_filter.mpr ⟨hc, by simp [hct]⟩, rfl⟩)
  · intro i hi hj
    rw [hs] at hi
    rw [hp] at hj
    rcases List.mem_map.mp hi with ⟨c1, hc1, he1⟩
    rcases List.mem_map.mp hj with ⟨c2, hc2, he2⟩
    have hm1 := List.mem_filter.mp hc1
    have hm2 := List.mem_filter.mp hc2
    have hceq : c1 = c2 :=
      List.inj_on_of_nodup_map hnd hm1.1 hm2.1 (he1.trans he2.symm)
    have h1 : c1.circuitType = CircuitType.SERIES := by
      have := hm1.2
      simpa using this
    have h2 : c2.circuitType = CircuitType.PARALLEL := by
      have := hm2.2
      simpa using this
    rw [hceq, h2] at h1
    exact CircuitType.noConfusion h1

/-- The spec's description of one id's contribution to the series
resistance: `value` for a resistor member, `0` otherwise. -/
def seriesContribution (s : State) (idv : Int) : Rat :=
  match FindComponent idv s with
  | some c => if c.type = ComponentType.RESISTOR then c.value else 0
  | none => 0

/-- The spec's description of one id's contribution to the parallel
reciprocal sum: `1/value` for a nonzero resistor member, `0` otherwise. -/
def parallelReciprocal (s : State) (idv : Int) : Rat :=
  match FindComponent idv s with
  | some c => if c.type = ComponentType.RESISTOR ∧ c.value ≠ 0 then 1 / c.value else 0
  | none => 0

/-- The series loop leaves the state unchanged and accumulates the
per-member contributions. -/
theorem calcSeriesLoop_eq (ids : List Int) (s : State) (a : Rat) :
    calcSeriesLoop ids s a = (s, a + (ids.map (seriesContribution s)).sum) := by
  induction ids generalizing a with
  | nil => simp [calcSeriesLoop]
  | cons idv rest ih =>
    cases hf : FindComponent idv s with
    | none => simp [calcSeriesLoop, hf, ih, seriesContribution]
    | some c =>
      by_cases ht : c.type = ComponentType.RESISTOR
      · simp [calcSeriesLoop, hf, ht, ih, seriesContribution, add_assoc]
      · simp [calcSeriesLoop, hf, ht, ih, seriesContribution]

/-- The parallel loop leaves the state unchanged and accumulates the
per-member reciprocals. -/
theorem calcParallelLoop_eq (ids : List Int) (s : State) (a : Rat) :
    calcParallelLoop ids s a = (s, a + (ids.map (parallelReciprocal s)).sum) := by
  induction ids generalizing a with
  | nil => simp [calcParallelLoop]
  | cons idv rest ih =>
    cases hf : FindComponent idv s with
    | none => simp [calcParallelLoop, hf, ih, parallelReciprocal]
    | some c =>
      by_cases ht : c.type = ComponentType.RESISTOR ∧ c.value ≠ 0
      · simp [calcParallelLoop, hf, ht, ih, parallelReciprocal, add_assoc]
      · simp [calcParallelLoop, hf, ht, ih, parallelReciprocal]

/-- `CalcSeries` as the spec's sum formula. -/
theorem CalcSeries_eq (ids : List Int) (s : State) :
    CalcSeries ids s = (ids.map (seriesContribution s)).sum := by
  rw [CalcSeries, calcSeriesLoop_eq]
  simp

/-- `CalcParallel` as the spec's guarded reciprocal formula. -/
theorem CalcParallel_eq (ids : List Int) (s : State) :
    CalcParallel ids s
      = (if (ids.map (parallelReciprocal s)).sum = 0 then 0
         else 1 / (ids.map (parallelReciprocal s)).sum) := by
  rw [CalcParallel, calcParallelLoop_eq]
  simp

/-- Real part of a complex sum. -/
theorem Cd.reAdd (x y : Cd) : (x + y).re = x.re + y.re := rfl

/-- Imaginary part of a complex sum. -/
theorem Cd.imAdd (x y : Cd) : (x + y).im = x.im + y.im := rfl

/-- Adding complex zero on the right. -/
theorem Cd.addZero (x : Cd) : x + { re := 0, im := 0 } = x := by
  apply Cd.ext <;> simp [Cd.reAdd, Cd.imAdd]

/-- Adding complex zero on the left. -/
theorem Cd.zeroAdd (x : Cd) : { re := 0, im := 0 } + x = x := by
  apply Cd.ext <;> simp [Cd.reAdd, Cd.imAdd]

/-- Associativity of complex addition. -/
theorem Cd.addAssoc (x y z : Cd) : x + y + z = x + (y + z) := by
  apply Cd.ext <;> simp [Cd.reAdd, Cd.imAdd] <;> ring

/-- Sum of a list of complex values. -/
def cdSum (l : List Cd) : Cd :=
  l.foldr (fun a b => a + b) { re := 0, im := 0 }

/-- `cdSum` of the empty list. -/
theorem cdSum_nil : cdSum [] = { re := 0, im := 0 } := rfl

/-- `cdSum` of a cons. -/
theorem cdSum_cons (z : Cd) (l : List Cd) : cdSum (z :: l) = z + cdSum l := rfl

/-- `cdSum` over an append. -/
theorem cdSum_append (l₁ l₂ : List Cd) : cdSum (l₁ ++ l₂) = cdSum l₁ + cdSum l₂ := by
  induction l₁ with
  | nil => rw [List.nil_append, cdSum_nil, Cd.zeroAdd]
  | cons z rest ih => rw [List.cons_append, cdSum_cons, cdSum_cons, ih, Cd.addAssoc]

/-- The spec's description of one id's admittance contribution: the
reciprocal of a nonzero member impedance, `0` otherwise (ids matching no
component have impedance `0` and so also contribute `0`). -/
def parallelAdmittance (s : State) (f : Rat) (idv : Int) : Cd :=
  match FindComponent idv s with
  | some c =>
    let z := GetComponentImpedanceComplex (some c) f
    if z ≠ { re := 0, im := 0 } then { re := 1, im := 0 } / z else { re := 0, im := 0 }
  | none => { re := 0, im := 0 }

/-- The series impedance loop leaves the state unchanged and accumulates
the complex impedances of the found members. -/
theorem calcSeriesImpedanceLoop_eq (ids : List Int) (f : Rat) (s : State) (z : Cd) :
    calcSeriesImpedanceLoop ids f s z
      = (s, z + cdSum (ids.map (fun i => GetComponentImpedanceComplex (FindComponent i s) f))) := by
  induction ids generalizing z with
  | nil => simp [calcSeriesImpedanceLoop, cdSum_nil, Cd.addZero]
  | cons idv rest ih =>
    cases hf : FindComponent idv s with
    | none =>
      simp [calcSeriesImpedanceLoop, hf, ih, cdSum_cons, GetComponentImpedanceComplex,
        Cd.zeroAdd]
    | some c =>
      simp [calcSeriesImpedanceLoop, hf, ih, cdSum_cons, Cd.addAssoc]

/-- The parallel impedance loop leaves the state unchanged and accumulates
the admittances of the found members with nonzero impedance. -/
theorem calcParallelImpedanceLoop_eq (ids : List Int) (f : Rat) (s : State) (z : Cd) :
    calcParallelImpedanceLoop ids f s z
      = (s, z + cdSum (ids.map (parallelAdmittance s f))) := by
  induction ids generalizing z with
  | nil => simp [calcParallelImpedanceLoop, cdSum_nil, Cd.addZero]
  | cons idv rest ih =>
    cases hf : FindComponent idv s with
    | none =>
      simp [calcParallelImpedanceLoop, hf, ih, cdSum_cons, parallelAdmittance, Cd.zeroAdd]
    | some c =>
      by_cases hz : GetComponentImpedanceComplex (some c) f ≠ { re := 0, im := 0 }
      · simp [calcParallelImpedanceLoop, hf, hz, ih, cdSum_cons, parallelAdmittance,
          Cd.addAssoc]
      · simp [calcParallelImpedanceLoop, hf, hz, ih, cdSum_cons, parallelAdmittance,
          Cd.zeroAdd]

/-- `CalcSeriesImpedanceSq` as the squared magnitude of the impedance sum. -/
theorem CalcSeriesImpedanceSq_eq (ids : List Int) (f : Rat) (s : State) :
    CalcSeriesImpedanceSq ids f s
      = Cd.absSq (cdSum (ids.map (fun i => GetComponentImpedanceComplex (FindComponent i s) f))) := by
  rw [CalcSeriesImpedanceSq, calcSeriesImpedanceLoop_eq]
  simp [Cd.zeroAdd]

/-- `CalcParallelImpedanceSq` as the guarded inverse of the admittance sum. -/
theorem CalcParallelImpedanceSq_eq (ids : List Int) (f : Rat) (s : State) :
    CalcParallelImpedanceSq ids f s
      = (if cdSum (ids.map (parallelAdmittance s f)) = { re := 0, im := 0 } then 0
         else Cd.absSq ({ re := 1, im := 0 } / cdSum (ids.map (parallelAdmittance s f)))) := by
  rw [CalcParallelImpedanceSq, calcParallelImpedanceLoop_eq]
  simp [Cd.zeroAdd]

/-- A squared magnitude is non-negative. -/
theorem Cd.absSq_nonneg (z : Cd) : 0 ≤ Cd.absSq z :=
  add_nonneg (mul_self_nonneg _) (mul_self_nonneg _)

/-- `RemoveComponent` never changes the id counter. -/
theorem RemoveComponent_nextId (idv : Int) (s : State) :
    (RemoveComponent idv s).1.nextId = s.nextId := by
  by_cases hfound : s.componentsData.any (fun c => c.id == idv) = true
  · rw [RemoveComponent_found _ _ hfound]
  · simp only [RemoveComponent, if_neg hfound]

/-- `Undo` never changes the id counter. -/
theorem Undo_nextId (s : State) : (Undo s).nextId = s.nextId := by
  cases hstk : s.undoStack with
  | nil => rw [Undo_nil hstk]
  | cons top rest => rw [Undo_cons hstk]

/-- Claim C1 (evidence of the code bug): the source's `AddComponent` calls
`PushSnapshot` after the `push_back`, so the pushed snapshot is the
post-add collection, not the collection "as it was before the mutation".
Consequently `Undo` is not an inverse of `AddComponent`: adding a resistor
to the empty initial ledger and then undoing leaves the added component in
the collection and on the series list, instead of restoring the empty
pre-add state. -/
theorem c1_undo_after_add_keeps_added_component :
    initState.componentsData = []
    ∧ (AddComponent ComponentType.RESISTOR 5 CircuitType.SERIES initState).undoStack
        = [[{ id := 1, type := ComponentType.RESISTOR, value := 5,
              circuitType := CircuitType.SERIES }]]
    ∧ (Undo (AddComponent ComponentType.RESISTOR 5 CircuitType.SERIES initState)).componentsData
        = [{ id := 1, type := ComponentType.RESISTOR, value := 5,
             circuitType := CircuitType.SERIES }]
    ∧ (Undo (AddComponent ComponentType.RESISTOR 5 CircuitType.SERIES initState)).seriesCircuit
        = [1] := by
  refine ⟨rfl, rfl, rfl, rfl⟩

/-- Claim C2 (counterexample): the source's `AddComponent` function performs
no validation: called directly with value `0` it does mutate the component
collection. -/
theorem c2_counterexample :
    (AddComponent ComponentType.RESISTOR 0 CircuitType.SERIES initState).componentsData
      = [{ id := 1, type := ComponentType.RESISTOR, value := 0,
           circuitType := CircuitType.SERIES }]
    ∧ initState.componentsData = [] :=
  ⟨rfl, rfl⟩

/-- Claim C2 (amended): the `value > 0` check lives in the add screen's
submit handler, not in `AddComponent`; a submit whose parsed value is not
positive only sets the invalid-value status message and leaves the ledger
(collection, group lists, history stack, operation log, id counter) and the
text buffer unchanged. -/
theorem c2_submit_rejects_nonpositive (g : GuiState) (v : Rat) (t : ComponentType)
    (ct : CircuitType) (ok : Bool) (h : v ≤ 0) :
    DrawAddScreenSubmit ok v t ct g
      = { g with statusMessage := "Invalid value. Enter a positive number." }
    ∧ (DrawAddScreenSubmit ok v t ct g).ledger = g.ledger := by
  have hcond : ¬(ok = true ∧ 0 < v) := fun hcon => absurd hcon.2 (not_lt.mpr h)
  rw [DrawAddScreenSubmit, if_neg hcond]
  exact ⟨rfl, rfl⟩

/-- Claim C2 witness: the amended theorem applied at value 0 on the initial
state. -/
theorem c2_witness :
    (0 : Rat) ≤ 0
    ∧ DrawAddScreenSubmit true 0 ComponentType.RESISTOR CircuitType.SERIES
        { ledger := initState, textBuffer := "0", statusMessage := "", selectedIds := [] }
      = { ledger := initState, textBuffer := "0",
          statusMessage := "Invalid value. Enter a positive number.", selectedIds := [] } :=
  ⟨le_refl 0,
    (c2_submit_rejects_nonpositive
      { ledger := initState, textBuffer := "0", statusMessage := "", selectedIds := [] }
      0 ComponentType.RESISTOR CircuitType.SERIES true (le_refl 0)).1⟩

/-- Claim C3: in every well-formed ledger state (and every state reachable
by ledger operations from the initial state) the union of the series and
parallel id lists is the set of ids of the component collection and the two
lists are disjoint, and each of `AddComponent`, `RemoveComponent` and
`Undo` preserves this invariant. -/
theorem c3_group_lists_invariant (t : ComponentType) (v : Rat) (ct : CircuitType)
    (idv : Int) (ops : List LedgerOp) (s : State) (h : WF s) :
    GroupListsInv s
    ∧ GroupListsInv (AddComponent t v ct s)
    ∧ GroupListsInv (RemoveComponent idv s).1
    ∧ GroupListsInv (Undo s)
    ∧ GroupListsInv (runOps ops initState) :=
  ⟨groupListsInv_of_wf h, groupListsInv_of_wf (wf_add t v ct h),
    groupListsInv_of_wf (wf_remove idv h), groupListsInv_of_wf (wf_undo h),
    groupListsInv_of_wf (wf_runOps ops wf_initState)⟩

/-- Claim C3 witness: the invariant holds at the initial state and after a
concrete add. -/
theorem c3_witness :
    WF initState
    ∧ GroupListsInv (AddComponent ComponentType.CAPACITOR 2 CircuitType.PARALLEL initState) :=
  ⟨by decide,
    (c3_group_lists_invariant ComponentType.CAPACITOR 2 CircuitType.PARALLEL 1 []
      initState (by decide)).2.1⟩

/-- Claim C4: in every state reachable by ledger operations, a successful
`AddComponent` assigns exactly the current `nextId`, which is strictly
greater than every id already in the collection; ids stay duplicate-free;
the counter increments on add and is never changed by `RemoveComponent` or
`Undo`. -/
theorem c4_ids_monotonic (ops : List LedgerOp) (t : ComponentType) (v : Rat)
    (ct : CircuitType) (idv : Int) :
    (∀ c ∈ (runOps ops initState).componentsData, c.id < (runOps ops initState).nextId)
    ∧ (AddComponent t v ct (runOps ops initState)).componentsData
        = (runOps ops initState).componentsData
          ++ [{ id := (runOps ops initState).nextId, type := t, value := v, circuitType := ct }]
    ∧ (idsOf (AddComponent t v ct (runOps ops initState)).componentsData).Nodup
    ∧ (AddComponent t v ct (runOps ops initState)).nextId = (runOps ops initState).nextId + 1
    ∧ (RemoveComponent idv (runOps ops initState)).1.nextId = (runOps ops initState).nextId
    ∧ (Undo (runOps ops initState)).nextId = (runOps ops initState).nextId := by
  have hwf := wf_runOps ops wf_initState
  exact ⟨hwf.2.2.1, AddComponent_componentsData _ _ _ _, (wf_add t v ct hwf).2.1,
    AddComponent_nextId _ _ _ _, RemoveComponent_nextId _ _, Undo_nextId _⟩

/-- Claim C5: removing an id that matches no component returns `false` and
is a complete no-op: the returned state is the input state, so collection,
group lists, history stack and operation log are untouched and no snapshot
is pushed. -/
theorem c5_remove_nonexistent_noop (idv : Int) (s : State)
    (h : ∀ c ∈ s.componentsData, c.id ≠ idv) :
    RemoveComponent idv s = (s, false) := by
  have hany : ¬s.componentsData.any (fun c => c.id == idv) = true := by
    rw [List.any_eq_true]
    rintro ⟨c, hc, hbe⟩
    exact h c hc (by simpa using hbe)
  simp only [RemoveComponent, if_neg hany]

/-- Claim C5 witness: removing the absent id 2 from a one-component ledger
changes nothing and reports `false`. -/
theorem c5_witness :
    (∀ c ∈ (AddComponent ComponentType.RESISTOR 5 CircuitType.SERIES initState).componentsData,
        c.id ≠ 2)
    ∧ RemoveComponent 2 (AddComponent ComponentType.RESISTOR 5 CircuitType.SERIES initState)
        = (AddComponent ComponentType.RESISTOR 5 CircuitType.SERIES initState, false) :=
  ⟨by decide, c5_remove_nonexistent_noop 2 _ (by decide)⟩

/-- Claim C6 (counterexample to the boolean return): the source's `Undo` is
`void`; at its only call site (main-menu button 5) no result is surfaced:
undoing with an empty history and with a nonempty history produce the same
caller-visible status (the empty string), so no `false`/`true` is returned
to distinguish the two cases. -/
theorem c6_counterexample :
    initState.undoStack = []
    ∧ (AddComponent ComponentType.RESISTOR 5 CircuitType.SERIES initState).undoStack ≠ []
    ∧ (DrawMainMenuUndoClick
        { ledger := initState, textBuffer := "t", statusMessage := "old",
          selectedIds := [] }).statusMessage
      = (DrawMainMenuUndoClick
          { ledger := AddComponent ComponentType.RESISTOR 5 CircuitType.SERIES initState,
            textBuffer := "t", statusMessage := "old", selectedIds := [] }).statusMessage
    ∧ (DrawMainMenuUndoClick
        { ledger := initState, textBuffer := "t", statusMessage := "old",
          selectedIds := [] }).statusMessage = "" := by
  refine ⟨rfl, ?_, rfl, rfl⟩
  rw [AddComponent_undoStack]
  exact List.cons_ne_nil _ _

/-- Claim C6 (amended): `Undo` returns nothing; on an empty history stack it
leaves the whole state (collection, group lists, history stack, operation
log, id counter) unchanged, and on a nonempty stack it pops the top
snapshot, installs it as the collection and rebuilds both group lists from
it. -/
theorem c6_undo_state_behavior (s : State) :
    (s.undoStack = [] → Undo s = s)
    ∧ ∀ top rest, s.undoStack = top :: rest →
        Undo s = { s with
          componentsData := top
          undoStack := rest
          seriesCircuit := seriesIdsOf top
          parallelCircuit := parallelIdsOf top } :=
  ⟨Undo_nil, fun _ _ h => Undo_cons h⟩

/-- Claim C6 witness: both branches of the amended theorem at concrete
states. -/
theorem c6_witness :
    Undo initState = initState
    ∧ (Undo (AddComponent ComponentType.RESISTOR 5 CircuitType.SERIES initState)).componentsData
        = [{ id := 1, type := ComponentType.RESISTOR, value := 5,
             circuitType := CircuitType.SERIES }] := by
  refine ⟨(c6_undo_state_behavior initState).1 rfl, ?_⟩
  have h := (c6_undo_state_behavior
      (AddComponent ComponentType.RESISTOR 5 CircuitType.SERIES initState)).2
    [{ id := 1, type := ComponentType.RESISTOR, value := 5,
       circuitType := CircuitType.SERIES }] [] rfl
  rw [h]

/-- Claim C7: `CalcSeries` is the sum of `value` over resistor members (a
non-resistor or unmatched id contributes 0, the empty list gives 0), and
`CalcParallel` is `1 / Σ (1/value)` over nonzero resistor members, giving 0
whenever the reciprocal sum is zero (in particular for the empty list). -/
theorem c7_resistance_formulas (ids : List Int) (s : State) :
    CalcSeries ids s = (ids.map (seriesContribution s)).sum
    ∧ CalcSeries [] s = 0
    ∧ CalcParallel ids s
        = (if (ids.map (parallelReciprocal s)).sum = 0 then 0
           else 1 / (ids.map (parallelReciprocal s)).sum)
    ∧ CalcParallel [] s = 0 := by
  refine ⟨CalcSeries_eq ids s, ?_, CalcParallel_eq ids s, ?_⟩
  · rw [CalcSeries_eq]
    simp
  · rw [CalcParallel_eq]
    simp

/-- Real part of a complex product. -/
theorem Cd.reMul (x y : Cd) : (x * y).re = x.re * y.re - x.im * y.im := rfl

/-- Imaginary part of a complex product. -/
theorem Cd.imMul (x y : Cd) : (x * y).im = x.re * y.im + x.im * y.re := rfl

/-- Real part of a complex negation. -/
theorem Cd.reNeg (x : Cd) : (-x).re = -x.re := rfl

/-- Imaginary part of a complex negation. -/
theorem Cd.imNeg (x : Cd) : (-x).im = -x.im := rfl

/-- Real part of a complex quotient. -/
theorem Cd.reDiv (x y : Cd) :
    (x / y).re = (x.re * y.re + x.im * y.im) / (y.re * y.re + y.im * y.im) := rfl

/-- Imaginary part of a complex quotient. -/
theorem Cd.imDiv (x y : Cd) :
    (x / y).im = (x.im * y.re - x.re * y.im) / (y.re * y.re + y.im * y.im) := rfl

/-- Dividing `-J` by a real number `a` yields `-1/a` on the imaginary axis
(also at `a = 0`, where the rational convention `1/0 = 0` applies on both
sides). -/
theorem negJ_div_real (a : Rat) :
    (-J) / ({ re := a, im := 0 } : Cd) = { re := 0, im := -(1 / a) } := by
  apply Cd.ext
  · rw [Cd.reDiv]
    simp [J, Cd.reNeg, Cd.imNeg]
  · rw [Cd.imDiv]
    simp only [J, Cd.reNeg, Cd.imNeg]
    rcases eq_or_ne a 0 with rfl | ha
    · norm_num
    · field_simp

/-- Claim C8: per-member complex impedance is `value` for a resistor,
`j·2π·f·value` for an inductor, `-j/(2π·f·value)` for a capacitor with the
zero-value capacitor mapped to the finite sentinel `1e10`; the series
result is the squared magnitude of the impedance sum; the parallel result
inverts the admittance sum and is 0 when that sum is exactly zero; both
results are non-negative. -/
theorem c8_impedance_formulas (idn : Int) (v f : Rat) (ct : CircuitType)
    (ids : List Int) (s : State) :
    GetComponentImpedanceComplex
        (some { id := idn, type := ComponentType.RESISTOR, value := v, circuitType := ct }) f
      = { re := v, im := 0 }
    ∧ GetComponentImpedanceComplex
        (some { id := idn, type := ComponentType.INDUCTOR, value := v, circuitType := ct }) f
      = { re := 0, im := 2 * M_PI * f * v }
    ∧ GetComponentImpedanceComplex
        (some { id := idn, type := ComponentType.CAPACITOR, value := v, circuitType := ct }) f
      = (if v = 0 then { re := 1e10, im := 0 }
         else { re := 0, im := -(1 / (2 * M_PI * f * v)) })
    ∧ CalcSeriesImpedanceSq ids f s
        = Cd.absSq (cdSum (ids.map (fun i => GetComponentImpedanceComplex (FindComponent i s) f)))
    ∧ CalcParallelImpedanceSq ids f s
        = (if cdSum (ids.map (parallelAdmittance s f)) = { re := 0, im := 0 } then 0
           else Cd.absSq ({ re := 1, im := 0 } / cdSum (ids.map (parallelAdmittance s f))))
    ∧ 0 ≤ CalcSeriesImpedanceSq ids f s
    ∧ 0 ≤ CalcParallelImpedanceSq ids f s := by
  refine ⟨rfl, ?_, ?_, CalcSeriesImpedanceSq_eq ids f s, CalcParallelImpedanceSq_eq ids f s,
    Cd.absSq_nonneg _, ?_⟩
  · apply Cd.ext
    · rw [GetComponentImpedanceComplex]
      simp [Cd.reMul, Cd.imMul, J]
    · rw [GetComponentImpedanceComplex]
      simp [Cd.reMul, Cd.imMul, J]
  · by_cases hv : v = 0
    · simp [GetComponentImpedanceComplex, hv]
    · rw [GetComponentImpedanceComplex]
      simp only [hv, if_neg, if_false]
      rw [if_neg (by intro hcon; exact ComponentType.noConfusion hcon),
        if_neg (by intro hcon; exact ComponentType.noConfusion hcon)]
      exact negJ_div_real (2 * M_PI * f * v)
  · rw [CalcParallelImpedanceSq_eq]
    split
    · exact le_refl 0
    · exact Cd.absSq_nonneg _

/-- `PushSnapshot` on the activity log in closed form. -/
theorem PushSnapshot_opQueue (d : String) (s : State) :
    (PushSnapshot d s).opQueue
      = (if 20 < s.opQueue.length + 1 then (s.opQueue ++ [Operation.mk d]).tail
         else s.opQueue ++ [Operation.mk d]) := by
  simp [PushSnapshot]

/-- One snapshot keeps the activity log within the 20-entry cap. -/
theorem PushSnapshot_opQueue_length {s : State} (d : String)
    (h : s.opQueue.length ≤ 20) : (PushSnapshot d s).opQueue.length ≤ 20 := by
  rw [PushSnapshot_opQueue]
  split
  · simp only [List.length_tail, List.length_append, List.length_cons, List.length_nil]
    omega
  · rename_i hnot
    simp only [List.length_append, List.length_cons, List.length_nil]
    omega

/-- `Undo` never touches the activity log. -/
theorem Undo_opQueue (s : State) : (Undo s).opQueue = s.opQueue := by
  cases hstk : s.undoStack with
  | nil => rw [Undo_nil hstk]
  | cons top rest => rw [Undo_cons hstk]

/-- Every ledger operation keeps the activity log within the cap. -/
theorem applyOp_opQueue_length {s : State} (h : s.opQueue.length ≤ 20) (op : LedgerOp) :
    (applyOp s op).opQueue.length ≤ 20 := by
  cases op with
  | add t v ct => exact PushSnapshot_opQueue_length _ h
  | remove idv =>
    show (RemoveComponent idv s).1.opQueue.length ≤ 20
    by_cases hf : s.componentsData.any (fun c => c.id == idv) = true
    · rw [RemoveComponent_found _ _ hf]
      exact PushSnapshot_opQueue_length _ h
    · have hsame : (RemoveComponent idv s).1 = s := by
        simp only [RemoveComponent, if_neg hf]
      rw [hsame]
      exact h
  | undo =>
    show (Undo s).opQueue.length ≤ 20
    rw [Undo_opQueue]
    exact h

/-- In every reachable state the activity log holds at most 20 entries. -/
theorem runOps_opQueue_length (ops : List LedgerOp) :
    (runOps ops initState).opQueue.length ≤ 20 := by
  have hgen : ∀ ops : List LedgerOp, ∀ s : State, s.opQueue.length ≤ 20 →
      (runOps ops s).opQueue.length ≤ 20 := by
    intro ops
    induction ops with
    | nil => exact fun s h => h
    | cons op rest ih => exact fun s h => ih _ (applyOp_opQueue_length h op)
  exact hgen ops initState (by decide)

/-- Claim C9: a snapshot keeps the activity log within the 20-entry cap
(and reachable states always satisfy the cap); when the log is full the
oldest entry is discarded and the new label appended at the back, otherwise
the label is just appended. -/
theorem c9_oplog_bounded (d : String) (s : State) (ops : List LedgerOp)
    (h : s.opQueue.length ≤ 20) :
    (PushSnapshot d s).opQueue.length ≤ 20
    ∧ (s.opQueue.length = 20 →
        (PushSnapshot d s).opQueue = s.opQueue.tail ++ [Operation.mk d])
    ∧ (s.opQueue.length < 20 →
        (PushSnapshot d s).opQueue = s.opQueue ++ [Operation.mk d])
    ∧ (runOps ops initState).opQueue.length ≤ 20 := by
  refine ⟨PushSnapshot_opQueue_length d h, ?_, ?_, runOps_opQueue_length ops⟩
  · intro h20
    rw [PushSnapshot_opQueue, if_pos (by omega)]
    cases hq : s.opQueue with
    | nil => rw [hq] at h20; exact absurd h20 (by simp)
    | cons x xs => rfl
  · intro hlt
    rw [PushSnapshot_opQueue, if_neg (by omega)]

/-- Claim C9 witness: a snapshot on the initial state keeps the log within
the cap. -/
theorem c9_witness :
    initState.opQueue.length ≤ 20
    ∧ (PushSnapshot "label" initState).opQueue.length ≤ 20 :=
  ⟨by decide, (c9_oplog_bounded "label" initState [] (by decide)).1⟩

/-- Claim C10: the four aggregate queries thread the ledger state through
their loops unchanged (they mutate nothing), and an id matching no
component is skipped: inserting such an id anywhere in the input list
leaves every result unchanged. -/
theorem c10_queries_pure (ids pre post : List Int) (s : State) (a : Rat) (z : Cd)
    (f : Rat) (idv : Int) (h : FindComponent idv s = none) :
    (calcSeriesLoop ids s a).1 = s
    ∧ (calcParallelLoop ids s a).1 = s
    ∧ (calcSeriesImpedanceLoop ids f s z).1 = s
    ∧ (calcParallelImpedanceLoop ids f s z).1 = s
    ∧ CalcSeries (pre ++ idv :: post) s = CalcSeries (pre ++ post) s
    ∧ CalcParallel (pre ++ idv :: post) s = CalcParallel (pre ++ post) s
    ∧ CalcSeriesImpedanceSq (pre ++ idv :: post) f s = CalcSeriesImpedanceSq (pre ++ post) f s
    ∧ CalcParallelImpedanceSq (pre ++ idv :: post) f s
        = CalcParallelImpedanceSq (pre ++ post) f s := by
  refine ⟨?_, ?_, ?_, ?_, ?_, ?_, ?_, ?_⟩
  · rw [calcSeriesLoop_eq]
  · rw [calcParallelLoop_eq]
  · rw [calcSeriesImpedanceLoop_eq]
  · rw [calcParallelImpedanceLoop_eq]
  · rw [CalcSeries_eq, CalcSeries_eq]
    simp [seriesContribution, h]
  · have hsum : ((pre ++ idv :: post).map (parallelReciprocal s)).sum
        = ((pre ++ post).map (parallelReciprocal s)).sum := by
      simp [parallelReciprocal, h]
    rw [CalcParallel_eq, CalcParallel_eq, hsum]
  · have hsum : cdSum ((pre ++ idv :: post).map
          (fun i => GetComponentImpedanceComplex (FindComponent i s) f))
        = cdSum ((pre ++ post).map
          (fun i => GetComponentImpedanceComplex (FindComponent i s) f)) := by
      simp only [List.map_append, List.map_cons, cdSum_append, cdSum_cons, h]
      rw [show GetComponentImpedanceComplex none f = { re := 0, im := 0 } from rfl,
        Cd.zeroAdd]
    rw [CalcSeriesImpedanceSq_eq, CalcSeriesImpedanceSq_eq, hsum]
  · have hsum : cdSum ((pre ++ idv :: post).map (parallelAdmittance s f))
        = cdSum ((pre ++ post).map (parallelAdmittance s f)) := by
      simp only [List.map_append, List.map_cons, cdSum_append, cdSum_cons]
      rw [show parallelAdmittance s f idv = { re := 0, im := 0 } by
        rw [parallelAdmittance, h], Cd.zeroAdd]
    rw [CalcParallelImpedanceSq_eq, CalcParallelImpedanceSq_eq, hsum]

/-- Claim C10 witness: inserting the unmatched id 1 into the empty query
list changes nothing on the initial state. -/
theorem c10_witness :
    FindComponent 1 initState = none
    ∧ CalcSeries ([] ++ 1 :: []) initState = CalcSeries ([] ++ []) initState :=
  ⟨rfl,
    (c10_queries_pure [] [] [] initState 0 { re := 0, im := 0 } 50 1 rfl).2.2.2.2.1⟩

end Circuit
